import Mathlib

/-!
Verification development for the text-transformation feature of the
repository (`src/packages/ckeditor5-typing/src/texttransformation.js`).

The file shallowly embeds, faithfully to the JavaScript source:

* the built-in transformation catalog `TRANSFORMATIONS` and the group table
  `TRANSFORMATION_GROUPS`;
* the configuration-resolution pipeline `getConfiguredTransformations`
  together with `expandGroupsAndRemoveDuplicates` (a JavaScript `Set` used
  as an insertion-ordered, duplicate-suppressing accumulator);
* the per-rule matching machinery built in `TextTransformation.init`:
  `testCallback` / `textReplacer` for both literal patterns
  (`String.prototype.endsWith` / suffix splice) and the quote regular
  expressions produced by `buildQuotesRegExp`, which all have the single
  shape `(^|\s)q([^q]+)q$`, embedded as an executable matcher.

Text is modelled as `List Char`; every character appearing in the catalog
lies in the basic multilingual plane, so `List.length` agrees with the
UTF-16 `String.prototype.length` used by the source.
-/

namespace TextTransformation

/-- The ECMAScript `\s` character class (WhiteSpace ∪ LineTerminator),
used by the `(^|\s)` boundary alternative of `buildQuotesRegExp`. -/
def isJsWhitespace (c : Char) : Bool :=
  c == ' ' || c == '\t' || c == '\n' || c == '\r' ||
  c.val == 0x0B || c.val == 0x0C || c.val == 0xA0 || c.val == 0x1680 ||
  (0x2000 ≤ c.val && c.val ≤ 0x200A) ||
  c.val == 0x2028 || c.val == 0x2029 || c.val == 0x202F ||
  c.val == 0x205F || c.val == 0x3000 || c.val == 0xFEFF

/-- The `from` field of a transformation description: either a literal
string, or a `RegExp`.  The only regular expressions occurring in the
source file are those returned by `buildQuotesRegExp`, of the shape
`(^|\s)q([^q]+)q$` for a quote character `q`, so the regular-expression
case is represented by its quote character. -/
inductive Pattern where
  | lit (s : List Char)
  | quotesRegExp (quoteCharacter : Char)
deriving DecidableEq

/-- A transformation description `{ from, to }` (`from`/`to` are reserved
words in Lean, hence the underscores). -/
structure TRule where
  from_ : Pattern
  to_ : List Char
deriving DecidableEq

/-- Model of `buildQuotesRegExp( quoteCharacter )`, which returns
``new RegExp( `(^|\s)${q}([^${q}]+)${q}$` )``; in the embedding the
regular expression is represented by its quote character. -/
def buildQuotesRegExp (quoteCharacter : Char) : Pattern :=
  Pattern.quotesRegExp quoteCharacter

/-- The apostrophe character `'`, written via its code point. -/
def apostrophe : Char := Char.ofNat 39

/-- Catalog rule `TRANSFORMATIONS.copyright`. -/
def copyright : TRule := ⟨Pattern.lit ("(c)".toList), "©".toList⟩

/-- Catalog rule `TRANSFORMATIONS.registered_trademark`. -/
def registered_trademark : TRule := ⟨Pattern.lit ("(r)".toList), "®".toList⟩

/-- Catalog rule `TRANSFORMATIONS.trademark`. -/
def trademark : TRule := ⟨Pattern.lit ("(tm)".toList), "™".toList⟩

/-- Catalog rule `TRANSFORMATIONS.one_half`. -/
def one_half : TRule := ⟨Pattern.lit ("1/2".toList), "½".toList⟩

/-- Catalog rule `TRANSFORMATIONS.one_third`. -/
def one_third : TRule := ⟨Pattern.lit ("1/3".toList), "⅓".toList⟩

/-- Catalog rule `TRANSFORMATIONS.two_thirds`. -/
def two_thirds : TRule := ⟨Pattern.lit ("2/3".toList), "⅔".toList⟩

/-- Catalog rule `TRANSFORMATIONS.one_forth`. -/
def one_forth : TRule := ⟨Pattern.lit ("1/4".toList), "¼".toList⟩

/-- Catalog rule `TRANSFORMATIONS.three_quarters`. -/
def three_quarters : TRule := ⟨Pattern.lit ("3/4".toList), "¾".toList⟩

/-- Catalog rule `TRANSFORMATIONS.less_then_or_equal`. -/
def less_then_or_equal : TRule := ⟨Pattern.lit ("<=".toList), "≤".toList⟩

/-- Catalog rule `TRANSFORMATIONS.greater_then_or_equal`. -/
def greater_then_or_equal : TRule := ⟨Pattern.lit (">=".toList), "≥".toList⟩

/-- Catalog rule `TRANSFORMATIONS.not_equal`. -/
def not_equal : TRule := ⟨Pattern.lit ("!=".toList), "≠".toList⟩

/-- Catalog rule `TRANSFORMATIONS.arrow_left`. -/
def arrow_left : TRule := ⟨Pattern.lit ("<-".toList), "→".toList⟩

/-- Catalog rule `TRANSFORMATIONS.arrow_right`.  The source really maps `->` to `≠`
(an apparent catalog slip, preserved faithfully here). -/
def arrow_right : TRule := ⟨Pattern.lit ("->".toList), "≠".toList⟩

/-- Catalog rule `TRANSFORMATIONS.horizontal_ellipsis`. -/
def horizontal_ellipsis : TRule := ⟨Pattern.lit ("...".toList), "…".toList⟩

/-- Catalog rule `TRANSFORMATIONS.en_dash`. -/
def en_dash : TRule := ⟨Pattern.lit (" -- ".toList), " – ".toList⟩

/-- Catalog rule `TRANSFORMATIONS.em_dash`. -/
def em_dash : TRule := ⟨Pattern.lit (" --- ".toList), " — ".toList⟩

/-- Catalog rule `TRANSFORMATIONS.quotes_primary` (English, US). -/
def quotes_primary : TRule := ⟨buildQuotesRegExp '"', "$1“$2”".toList⟩

/-- Catalog rule `TRANSFORMATIONS.quotes_secondary` (English, US). -/
def quotes_secondary : TRule := ⟨buildQuotesRegExp apostrophe, "$1‘$2’".toList⟩

/-- Catalog rule `TRANSFORMATIONS.quotes_primary_en_gb`. -/
def quotes_primary_en_gb : TRule := ⟨buildQuotesRegExp apostrophe, "$1‘$2’".toList⟩

/-- Catalog rule `TRANSFORMATIONS.quotes_secondary_en_gb`. -/
def quotes_secondary_en_gb : TRule := ⟨buildQuotesRegExp '"', "$1“$2”".toList⟩

/-- Catalog rule `TRANSFORMATIONS.quotes_primary_pl`. -/
def quotes_primary_pl : TRule := ⟨buildQuotesRegExp '"', "$1„$2”".toList⟩

/-- Catalog rule `TRANSFORMATIONS.quotes_secondary_pl`. -/
def quotes_secondary_pl : TRule := ⟨buildQuotesRegExp apostrophe, "$1‚$2’".toList⟩

/-- The module-level object literal `TRANSFORMATIONS`, as a lookup by
property name. -/
def TRANSFORMATIONS (name : String) : Option TRule :=
  if name = "copyright" then some copyright
  else if name = "registered_trademark" then some registered_trademark
  else if name = "trademark" then some trademark
  else if name = "one_half" then some one_half
  else if name = "one_third" then some one_third
  else if name = "two_thirds" then some two_thirds
  else if name = "one_forth" then some one_forth
  else if name = "three_quarters" then some three_quarters
  else if name = "less_then_or_equal" then some less_then_or_equal
  else if name = "greater_then_or_equal" then some greater_then_or_equal
  else if name = "not_equal" then some not_equal
  else if name = "arrow_left" then some arrow_left
  else if name = "arrow_right" then some arrow_right
  else if name = "horizontal_ellipsis" then some horizontal_ellipsis
  else if name = "en_dash" then some en_dash
  else if name = "em_dash" then some em_dash
  else if name = "quotes_primary" then some quotes_primary
  else if name = "quotes_secondary" then some quotes_secondary
  else if name = "quotes_primary_en_gb" then some quotes_primary_en_gb
  else if name = "quotes_secondary_en_gb" then some quotes_secondary_en_gb
  else if name = "quotes_primary_pl" then some quotes_primary_pl
  else if name = "quotes_secondary_pl" then some quotes_secondary_pl
  else none

/-- The module-level object literal `TRANSFORMATION_GROUPS`, as a lookup
by property name. -/
def TRANSFORMATION_GROUPS (name : String) : Option (List String) :=
  if name = "symbols" then
    some (["copyright", "registered_trademark", "trademark"])
  else if name = "mathematical" then
    some (["one_half", "one_third", "two_thirds", "one_forth",
      "three_quarters", "less_then_or_equal", "greater_then_or_equal",
      "not_equal", "arrow_left", "arrow_right"])
  else if name = "typography" then
    some (["horizontal_ellipsis", "en_dash", "em_dash"])
  else if name = "quotes" then
    some (["quotes_primary", "quotes_secondary"])
  else none

/-- An element of the configuration arrays `include`/`extra`: either a
string (a transformation or group name) or an inline transformation
object.  JavaScript compares objects by reference, so inline objects are
modelled by an identity token; the `{ from, to }` payload of an inline
object plays no role in any resolution step of the source
(`TRANSFORMATION_GROUPS[ e ]` and `TRANSFORMATIONS[ e ]` miss for every
object, and `remove.includes( e )` is false for every object when
`remove` holds names). -/
inductive ConfigEntry where
  | str (s : String)
  | obj (id : Nat)
deriving DecidableEq

/-- The `typing.transformation` configuration consumed by
`getConfiguredTransformations`; `extra`/`remove` default to `[]` in the
source (`config.extra || []`), which the model makes plain lists.
`include` is a reserved word in Lean, hence the underscore. -/
structure TransformationConfig where
  include_ : List ConfigEntry
  extra : List ConfigEntry
  remove : List String
deriving DecidableEq

/-- Constant `DEFAULT_TRANSFORMATIONS`, the default value of
`typing.transformation.include`. -/
def DEFAULT_TRANSFORMATIONS : List ConfigEntry :=
  [ConfigEntry.str "symbols", ConfigEntry.str "mathematical",
   ConfigEntry.str "typography", ConfigEntry.str "quotes"]

/-- One `Set.prototype.add`: a JavaScript `Set` is an insertion-ordered
collection that ignores an element already present. -/
def addUnique {α : Type} [DecidableEq α] (acc : List α) (e : α) : List α :=
  if e ∈ acc then acc else acc ++ [e]

/-- The body of the `for` loop of `expandGroupsAndRemoveDuplicates`:
if the entry names a known group, add every member of the group to the
`Set`, otherwise add the entry itself. -/
def addEntryExpanded (definedTransformations : List ConfigEntry) :
    ConfigEntry → List ConfigEntry
  | ConfigEntry.str s =>
    match TRANSFORMATION_GROUPS s with
    | some members =>
      members.foldl
        (fun acc m => addUnique acc (ConfigEntry.str m))
        definedTransformations
    | none => addUnique definedTransformations (ConfigEntry.str s)
  | ConfigEntry.obj i => addUnique definedTransformations (ConfigEntry.obj i)

/-- Function `expandGroupsAndRemoveDuplicates( definitions )`: fold the
definitions into a `Set`, expanding every known group name to its member
names. -/
def expandGroupsAndRemoveDuplicates (definitions : List ConfigEntry) :
    List ConfigEntry :=
  definitions.foldl addEntryExpanded []

/-- The predicate `isNotRemoved` of `getConfiguredTransformations`:
`transformation => !remove.includes( transformation )`.  An inline object
never equals a name held by `remove`. -/
def isNotRemoved (remove : List String) : ConfigEntry → Bool
  | ConfigEntry.str s => decide (s ∉ remove)
  | ConfigEntry.obj _ => true

/-- An element of the resolved transformation list:
`TRANSFORMATIONS[ transformation ] || transformation`.  A built-in name
resolves to the catalog object stored under that name (JavaScript object
identity is the catalog slot, recorded here as the name); everything else
falls through unchanged. -/
inductive Resolved where
  | rule (name : String) (r : TRule)
  | other (e : ConfigEntry)
deriving DecidableEq

/-- The materialization step of `getConfiguredTransformations`:
`transformation => TRANSFORMATIONS[ transformation ] || transformation`. -/
def materialize : ConfigEntry → Resolved
  | ConfigEntry.str s =>
    match TRANSFORMATIONS s with
    | some r => Resolved.rule s r
    | none => Resolved.other (ConfigEntry.str s)
  | ConfigEntry.obj i => Resolved.other (ConfigEntry.obj i)

/-- Whether an `include`/`extra` entry is the name of a built-in
transformation (`TRANSFORMATIONS[ e ]` hits). -/
def isBuiltinRuleName : ConfigEntry → Bool
  | ConfigEntry.str s => (TRANSFORMATIONS s).isSome
  | ConfigEntry.obj _ => false

/-- Whether an `include`/`extra` entry is the name of a transformation
group (`TRANSFORMATION_GROUPS[ e ]` hits). -/
def isGroupEntryName : ConfigEntry → Bool
  | ConfigEntry.str s => (TRANSFORMATION_GROUPS s).isSome
  | ConfigEntry.obj _ => false

/-- The entry list produced by `getConfiguredTransformations` just before
materialization: `include.concat( extra ).filter( isNotRemoved )`,
expanded and deduplicated, then filtered by `isNotRemoved` again. -/
def resolvedEntries (config : TransformationConfig) : List ConfigEntry :=
  (expandGroupsAndRemoveDuplicates
      ((config.include_ ++ config.extra).filter
        (isNotRemoved config.remove))).filter
    (isNotRemoved config.remove)

/-- Function `getConfiguredTransformations( config )`. -/
def getConfiguredTransformations (config : TransformationConfig) :
    List Resolved :=
  (resolvedEntries config).map materialize

/-- Matching of the tail part `q([^q]+)q` of `buildQuotesRegExp`'s
pattern against the rest of the input, together with the end anchor `$`:
succeeds exactly when the list is `q :: content ++ [q]` with `content`
non-empty and free of `q`, returning the capture `content` (group 2). -/
def quoteTail (q : Char) : List Char → Option (List Char)
  | [] => none
  | c :: rest =>
    if c = q ∧ rest.getLast? = some q ∧ rest.dropLast ≠ [] ∧
        q ∉ rest.dropLast then
      some rest.dropLast
    else none

/-- Scanning for the `\s` alternative of the boundary `(^|\s)` at
successive start positions (leftmost first, as a JavaScript regular
expression searches): at each position whose character is ECMAScript
whitespace, try to finish the match with `quoteTail`; the result is
`(prefix before the match, group 1, group 2)`. -/
def quoteSearch (q : Char) : List Char →
    Option (List Char × List Char × List Char)
  | [] => none
  | c :: rest =>
    match (if isJsWhitespace c then quoteTail q rest else none) with
    | some content => some ([], [c], content)
    | none =>
      (quoteSearch q rest).map (fun p => (c :: p.1, p.2.1, p.2.2))

/-- The match of the regular expression `(^|\s)q([^q]+)q$` against a
probe text, with JavaScript semantics: the leftmost match wins and, at
position 0, the alternative `^` is tried before `\s`.  Returns
`(prefix before the match, group 1, group 2)`; the match itself is
`group1 ++ q :: group2 ++ [q]` and, because of the `$` anchor, it always
extends to the end of the text. -/
def quoteExec (q : Char) (text : List Char) :
    Option (List Char × List Char × List Char) :=
  match quoteTail q text with
  | some content => some ([], [], content)
  | none => quoteSearch q text

/-- Model of `RegExp.prototype.test` for a `buildQuotesRegExp` pattern. -/
def regExpTest (q : Char) (text : List Char) : Bool :=
  (quoteExec q text).isSome

/-- Model of the `String.prototype.replace` substitution of the replacement template:
`$1` and `$2` are replaced by the captures, every other character is
copied.  All templates in the catalog are of the form `$1x$2y`. -/
def applyTemplate (g1 g2 : List Char) : List Char → List Char
  | [] => []
  | '$' :: '1' :: rest => g1 ++ applyTemplate g1 g2 rest
  | '$' :: '2' :: rest => g2 ++ applyTemplate g1 g2 rest
  | c :: rest => c :: applyTemplate g1 g2 rest

/-- Model of `message.replace( from, to )` for a `buildQuotesRegExp` pattern
(no global flag, so only the first match is replaced; the match always
reaches the end of the message, so nothing follows it). -/
def regExpReplace (q : Char) (to_ message : List Char) : List Char :=
  match quoteExec q message with
  | some (pre, g1, g2) => pre ++ applyTemplate g1 g2 to_
  | none => message

/-- The `testCallback` built by `TextTransformation.init` for one
transformation: `text => from.test( text )` for a regular expression,
`text => text.endsWith( from )` for a literal. -/
def testCallback (transformation : TRule) (text : List Char) : Bool :=
  match transformation.from_ with
  | Pattern.lit s => s.isSuffixOf text
  | Pattern.quotesRegExp q => regExpTest q text

/-- The `textReplacer` built by `TextTransformation.init` for one
transformation: `message => message.replace( from, to )` for a regular
expression, `message => message.slice( 0, message.length - from.length )
+ to` for a literal. -/
def textReplacer (transformation : TRule) (message : List Char) :
    List Char :=
  match transformation.from_ with
  | Pattern.lit s =>
    message.take (message.length - s.length) ++ transformation.to_
  | Pattern.quotesRegExp q => regExpReplace q transformation.to_ message

/-- The text-formatting attributes active at the cursor
(`selection.getAttributes()`), opaque to the feature and merely passed
through to the emitted replace instruction. -/
abbrev Attrs := List (String × String)

/-- The single replace instruction issued by a `matched:data` handler of
`TextTransformation.init`: replace `textToReplaceLength` characters
immediately before the cursor (`focus.getShiftedBy( -textToReplaceLength )`
up to `focus`) by `textToInsert`, created with the attributes active at
the cursor, inside one `model.enqueueChange` batch. -/
structure ReplaceInstruction where
  textToReplaceLength : Nat
  textToInsert : List Char
  attrs : Attrs
deriving DecidableEq

/-- Modelled from the spec: the host `TextWatcher`
(`@ckeditor/ckeditor5-utils/src/textwatcher`, not part of the reviewed
sources) and its event delivery.  Per the spec's external interface,
`watchText( probeSource, testPredicate )` delivers a `matched` event
"carrying the matched probe text and the current cursor position", the
probe text being "the text content of the current text node immediately
preceding the cursor".  `TextTransformation.init` registers one
independent watcher per configured transformation, in registry order, so
one text-change event delivers the probe text to every watcher whose
`testCallback` passes, and each passing watcher's `matched:data` handler
emits its replace instruction computed from that same probe text. -/
def emittedInstructions (rules : List TRule) (probe : List Char)
    (attrs : Attrs) : List ReplaceInstruction :=
  match rules with
  | [] => []
  | r :: rest =>
    (if testCallback r probe then
      [⟨probe.length, textReplacer r probe, attrs⟩]
     else []) ++ emittedInstructions rest probe attrs

/-- Effect of one replace instruction on the text before the cursor:
the range `[focus - textToReplaceLength, focus)` is replaced by
`textToInsert`. -/
def applyReplace (text : List Char) (ins : ReplaceInstruction) :
    List Char :=
  text.take (text.length - ins.textToReplaceLength) ++ ins.textToInsert

/-- The text before the cursor after all instructions emitted for one
text-change event have been applied. -/
def documentAfterEvent (rules : List TRule) (probe : List Char)
    (attrs : Attrs) : List Char :=
  (emittedInstructions rules probe attrs).foldl applyReplace probe

/-- Specification-side description of one step of group expansion: a
known group name becomes its member list, anything else stays a
singleton. -/
def expandEntry : ConfigEntry → List ConfigEntry
  | ConfigEntry.str s =>
    match TRANSFORMATION_GROUPS s with
    | some members => members.map ConfigEntry.str
    | none => [ConfigEntry.str s]
  | ConfigEntry.obj i => [ConfigEntry.obj i]

/-- Specification-side description of full group expansion, without any
duplicate suppression. -/
def expandAll (definitions : List ConfigEntry) : List ConfigEntry :=
  definitions.flatMap expandEntry

/-- Specification-side first-occurrence deduplication: keep each element
at the position of its first occurrence. -/
def dedupFirst {α : Type} [DecidableEq α] : List α → List α
  | [] => []
  | a :: l => a :: (dedupFirst l).filter (fun x => decide (x ≠ a))

theorem mem_dedupFirst {α : Type} [DecidableEq α] (x : α) :
    ∀ l : List α, x ∈ dedupFirst l ↔ x ∈ l
  | [] => Iff.rfl
  | a :: l => by
    simp only [dedupFirst, List.mem_cons, List.mem_filter,
      decide_eq_true_iff, mem_dedupFirst x l]
    constructor
    · rintro (rfl | ⟨h, _⟩)
      · exact Or.inl rfl
      · exact Or.inr h
    · rintro (rfl | h)
      · exact Or.inl rfl
      · by_cases hxa : x = a
        · exact Or.inl hxa
        · exact Or.inr ⟨h, hxa⟩

theorem nodup_dedupFirst {α : Type} [DecidableEq α] :
    ∀ l : List α, (dedupFirst l).Nodup
  | [] => List.nodup_nil
  | a :: l => by
    rw [dedupFirst, List.nodup_cons]
    refine ⟨fun hmem => ?_, (nodup_dedupFirst l).filter _⟩
    have := (List.mem_filter.1 hmem).2
    simp at this

theorem foldl_addUnique_eq {α : Type} [DecidableEq α] :
    ∀ (l acc : List α),
      l.foldl addUnique acc =
        acc ++ (dedupFirst l).filter (fun x => decide (x ∉ acc))
  | [], acc => by simp [dedupFirst]
  | e :: l, acc => by
    rw [List.foldl_cons, foldl_addUnique_eq l, dedupFirst, List.filter_cons]
    by_cases he : e ∈ acc
    · rw [addUnique, if_pos he]
      have hd : decide (e ∉ acc) = false := by simpa using he
      rw [hd, if_neg (by simp), List.filter_filter]
      congr 1
      refine List.filter_congr fun x _ => ?_
      by_cases hxe : x = e
      · subst hxe
        simp [he]
      · simp [hxe]
    · rw [addUnique, if_neg he]
      have hd : decide (e ∉ acc) = true := by simpa using he
      rw [hd, if_pos rfl, List.filter_filter, List.append_assoc,
        List.singleton_append]
      congr 2
      refine List.filter_congr fun x _ => ?_
      by_cases hxe : x = e
      · subst hxe
        simp
      · simp [hxe, List.mem_append]

theorem addEntryExpanded_eq (acc : List ConfigEntry) (e : ConfigEntry) :
    addEntryExpanded acc e = (expandEntry e).foldl addUnique acc := by
  cases e with
  | str s =>
    rw [addEntryExpanded, expandEntry]
    cases TRANSFORMATION_GROUPS s with
    | some members => rw [List.foldl_map]
    | none => rfl
  | obj i => rfl

theorem expandGroupsAndRemoveDuplicates_eq
    (definitions : List ConfigEntry) :
    expandGroupsAndRemoveDuplicates definitions =
      dedupFirst (expandAll definitions) := by
  have key : ∀ (l : List ConfigEntry) (acc : List ConfigEntry),
      l.foldl addEntryExpanded acc = (expandAll l).foldl addUnique acc := by
    intro l
    induction l with
    | nil => intro acc; rfl
    | cons e l ih =>
      intro acc
      rw [List.foldl_cons, addEntryExpanded_eq, expandAll,
        List.flatMap_cons, List.foldl_append, ih, expandAll]
  rw [expandGroupsAndRemoveDuplicates, key, foldl_addUnique_eq,
    List.nil_append]
  exact List.filter_eq_self.2 fun a _ => by simp

theorem materialize_injective : Function.Injective materialize := by
  intro a b h
  cases a with
  | str s =>
    cases b with
    | str t =>
      rw [materialize, materialize] at h
      cases hs : TRANSFORMATIONS s <;> rw [hs] at h <;>
        cases ht : TRANSFORMATIONS t <;> rw [ht] at h <;>
        cases h <;> rfl
    | obj j =>
      rw [materialize, materialize] at h
      cases hs : TRANSFORMATIONS s <;> rw [hs] at h <;> cases h
  | obj i =>
    cases b with
    | str t =>
      rw [materialize, materialize] at h
      cases ht : TRANSFORMATIONS t <;> rw [ht] at h <;> cases h
    | obj j => cases h; rfl

/-- Any non-group entry of `include`/`extra` that is not removed survives
into `resolvedEntries`. -/
theorem mem_resolvedEntries (config : TransformationConfig)
    (e : ConfigEntry) (hin : e ∈ config.include_ ++ config.extra)
    (hgroup : expandEntry e = [e])
    (hrem : isNotRemoved config.remove e = true) :
    e ∈ resolvedEntries config := by
  have h1 : e ∈ (config.include_ ++ config.extra).filter
      (isNotRemoved config.remove) := List.mem_filter.2 ⟨hin, hrem⟩
  have h2 : e ∈ expandAll ((config.include_ ++ config.extra).filter
      (isNotRemoved config.remove)) :=
    List.mem_flatMap.2 ⟨e, h1, by rw [hgroup]; exact List.mem_singleton_self e⟩
  rw [resolvedEntries, expandGroupsAndRemoveDuplicates_eq]
  exact List.mem_filter.2 ⟨(mem_dedupFirst e _).2 h2, hrem⟩

/-- A member of a transformation group is never itself a group name. -/
theorem group_member_not_group {g : String} {mems : List String}
    (hg : TRANSFORMATION_GROUPS g = some mems) {m : String}
    (hm : m ∈ mems) : TRANSFORMATION_GROUPS m = none := by
  rw [TRANSFORMATION_GROUPS] at hg
  split_ifs at hg <;> cases hg <;> fin_cases hm <;> decide

/-- The watcher loop of `init` emits, in registry order, one instruction
for every rule whose `testCallback` passes on the probe text. -/
theorem emittedInstructions_eq (rules : List TRule) (probe : List Char)
    (attrs : Attrs) :
    emittedInstructions rules probe attrs =
      (rules.filter (fun r => testCallback r probe)).map
        (fun r => ⟨probe.length, textReplacer r probe, attrs⟩) := by
  induction rules with
  | nil => rfl
  | cons r rest ih =>
    rw [emittedInstructions, List.filter_cons]
    by_cases h : testCallback r probe
    · simp only [h, if_pos, List.map_cons, List.singleton_append, ih]
    · simp only [h, Bool.false_eq_true, if_false, List.nil_append, ih]

/-- C1 (counterexample): the claim that evaluation stops at the first
matching rule in registry order, later matching rules emitting nothing,
is false on the code.  `TextTransformation.init` registers one
independent `TextWatcher` per rule with no cross-rule coordination, so
for the probe text `"hi"` under the two active rules `quotes_primary`
(registry-earlier) and `quotes_primary_pl` (registry-later), both of
which match, the event emits TWO replace instructions — the second
carrying the later rule's replacement `„hi”` — instead of the claimed
single instruction of the earlier rule only. -/
theorem first_match_wins_counterexample :
    emittedInstructions [quotes_primary, quotes_primary_pl]
        ("\"hi\"".toList) [] =
      [⟨4, "“hi”".toList, []⟩, ⟨4, "„hi”".toList, []⟩] ∧
    (emittedInstructions [quotes_primary, quotes_primary_pl]
        ("\"hi\"".toList) []).length = 2 := by decide

/-- C1 (amended): there is no first-match cutoff.  Every active rule
whose test matches the probe text of a text-change event emits its own
replace instruction: the emitted list is exactly the in-registry-order
map of the matching rules' replacements, so a later matching rule emits
even when an earlier rule also matched. -/
theorem every_matching_rule_emits (rules : List TRule) (probe : List Char)
    (attrs : Attrs) :
    emittedInstructions rules probe attrs =
      (rules.filter (fun r => testCallback r probe)).map
        (fun r => ⟨probe.length, textReplacer r probe, attrs⟩) :=
  emittedInstructions_eq rules probe attrs

/-- C2 (counterexample): the claim that the emitted instruction replaces
exactly `matchedText.length` characters before the cursor with the
computed `textToInsert` (the literal `to` for a literal rule) is false on
the code.  For probe text `x(c)` and the single active rule `copyright`
(`from: "(c)"`, so `matchedText` is `(c)` of length 3 and the claimed
insertion is `©`), the emitted instruction replaces 4 characters — the
whole probe text — with `x©`. -/
theorem replace_span_counterexample :
    emittedInstructions [copyright] ("x(c)".toList) [] =
      [⟨4, "x©".toList, []⟩] ∧
    emittedInstructions [copyright] ("x(c)".toList) [] ≠
      [⟨3, "©".toList, []⟩] := by decide

/-- C2 (amended): every replace instruction emitted for a text-change
event replaces `probe.length` characters immediately before the cursor —
the whole probe text delivered by the watcher, not just the matched text
— with the probe text rewritten by its rule (`textReplacer` applied to
the probe, which splices the replacement over the matched part), and it
preserves the text-formatting attributes active at the cursor; one such
instruction arises per matching rule. -/
theorem emitted_instruction_shape (rules : List TRule) (probe : List Char)
    (attrs : Attrs) (ins : ReplaceInstruction)
    (h : ins ∈ emittedInstructions rules probe attrs) :
    ins.textToReplaceLength = probe.length ∧ ins.attrs = attrs ∧
    ∃ r ∈ rules, testCallback r probe = true ∧
      ins.textToInsert = textReplacer r probe := by
  rw [emittedInstructions_eq] at h
  obtain ⟨r, hr, rfl⟩ := List.mem_map.1 h
  obtain ⟨hrules, hmatch⟩ := List.mem_filter.1 hr
  exact ⟨rfl, rfl, r, hrules, hmatch, rfl⟩

/-- Witness for C2 (amended): for probe text `a(tm)` under the single
rule `trademark` with attributes `[bold ↦ true]`, the concrete emitted
instruction `⟨5, a™, [bold ↦ true]⟩` has the stated shape. -/
theorem emitted_instruction_shape_witness :
    (⟨5, "a™".toList, [("bold", "true")]⟩
        : ReplaceInstruction).textToReplaceLength =
      ("a(tm)".toList).length ∧
    (⟨5, "a™".toList, [("bold", "true")]⟩ : ReplaceInstruction).attrs =
      [("bold", "true")] ∧
    ∃ r ∈ [trademark], testCallback r ("a(tm)".toList) = true ∧
      (⟨5, "a™".toList, [("bold", "true")]⟩
          : ReplaceInstruction).textToInsert =
        textReplacer r ("a(tm)".toList) :=
  emitted_instruction_shape [trademark] ("a(tm)".toList)
    [("bold", "true")] ⟨5, "a™".toList, [("bold", "true")]⟩ (by decide)

/-- C3: for the probe text `He said "hello"` under the US primary-quotes
rule, the regular-expression match is ` "hello"` — the quote-delimited
span plus the preceding boundary — with captures: group 1 = the boundary
(one space), group 2 = `hello`; the emitted replacement leaves the
prefix `He said` unchanged and consists of the preserved boundary
character followed by the span wrapped in directional quotes,
`“hello”`. -/
theorem quotes_primary_example :
    quoteExec '"' ("He said \"hello\"".toList) =
      some ("He said".toList, " ".toList, "hello".toList) ∧
    emittedInstructions [quotes_primary] ("He said \"hello\"".toList) [] =
      [⟨("He said \"hello\"".toList).length,
        "He said".toList ++ " ".toList ++ "“hello”".toList, []⟩] := by
  decide

/-- C9: a text-change event whose probe text is matched by no active
rule emits no replace instruction and leaves the document state (the
text before the cursor) unchanged. -/
theorem no_match_no_op (rules : List TRule) (probe : List Char)
    (attrs : Attrs) (h : ∀ r ∈ rules, testCallback r probe = false) :
    emittedInstructions rules probe attrs = [] ∧
    documentAfterEvent rules probe attrs = probe := by
  have he : emittedInstructions rules probe attrs = [] := by
    induction rules with
    | nil => rfl
    | cons r rest ih =>
      simp only [emittedInstructions, h r (List.mem_cons_self r rest),
        Bool.false_eq_true, if_false, List.nil_append]
      exact ih fun r' hr' => h r' (List.mem_cons_of_mem r hr')
  refine ⟨he, ?_⟩
  rw [documentAfterEvent, he]
  rfl

/-- Witness for C9: the probe text `hello` matches neither `copyright`
nor `one_half`, so nothing is emitted and the text is unchanged. -/
theorem no_match_no_op_witness :
    emittedInstructions [copyright, one_half] ("hello".toList) [] = [] ∧
    documentAfterEvent [copyright, one_half] ("hello".toList) [] =
      "hello".toList :=
  no_match_no_op [copyright, one_half] ("hello".toList) [] (by decide)

/-- C4: for every configuration, no name listed in `remove` survives
into the resolved list — neither as an entry of `resolvedEntries`
(the `remove` filter runs on the raw `include`/`extra` entries and again
after group expansion, so this covers rules reachable only through a
group) nor, after materialization, as the catalog rule stored under that
name. -/
theorem removed_name_never_resolved (config : TransformationConfig)
    (n : String) (h : n ∈ config.remove) :
    ConfigEntry.str n ∉ resolvedEntries config ∧
    ∀ r : TRule,
      Resolved.rule n r ∉ getConfiguredTransformations config := by
  have h1 : ConfigEntry.str n ∉ resolvedEntries config := by
    intro hmem
    have h2 := (List.mem_filter.1 hmem).2
    rw [isNotRemoved] at h2
    exact of_decide_eq_true h2 h
  refine ⟨h1, fun r hmem => ?_⟩
  obtain ⟨e, he, hmat⟩ := List.mem_map.1 hmem
  cases e with
  | str s =>
    rw [materialize] at hmat
    cases hs : TRANSFORMATIONS s with
    | some r' =>
      rw [hs] at hmat
      injection hmat with hname _
      exact h1 (hname ▸ he)
    | none =>
      rw [hs] at hmat
      exact Resolved.noConfusion hmat
  | obj i =>
    rw [materialize] at hmat
    exact Resolved.noConfusion hmat

/-- Witness for C4: removing `en_dash` excludes it even though the
`typography` group in `include` would have expanded to it. -/
theorem removed_name_never_resolved_witness :
    ConfigEntry.str "en_dash" ∉
      resolvedEntries ⟨[ConfigEntry.str "typography"], [], ["en_dash"]⟩ ∧
    Resolved.rule "en_dash" en_dash ∉
      getConfiguredTransformations
        ⟨[ConfigEntry.str "typography"], [], ["en_dash"]⟩ :=
  ⟨(removed_name_never_resolved
      ⟨[ConfigEntry.str "typography"], [], ["en_dash"]⟩ "en_dash"
      (by decide)).1,
   (removed_name_never_resolved
      ⟨[ConfigEntry.str "typography"], [], ["en_dash"]⟩ "en_dash"
      (by decide)).2 en_dash⟩

/-- C5: the resolved rule list is duplicate-free — named rules collapse
to a single occurrence of their catalog object (recorded by name, which
is the JavaScript object identity of a catalog slot), inline objects are
distinct by identity — and it is exactly the first-occurrence-order
deduplication of the group-expanded, removal-filtered
`include ++ extra` sequence, filtered by `remove` once more. -/
theorem resolved_nodup_and_order (config : TransformationConfig) :
    (getConfiguredTransformations config).Nodup ∧
    resolvedEntries config =
      (dedupFirst (expandAll ((config.include_ ++ config.extra).filter
        (isNotRemoved config.remove)))).filter
        (isNotRemoved config.remove) := by
  constructor
  · rw [getConfiguredTransformations, resolvedEntries,
      expandGroupsAndRemoveDuplicates_eq]
    exact (((nodup_dedupFirst _).filter _)).map materialize_injective
  · rw [resolvedEntries, expandGroupsAndRemoveDuplicates_eq]

/-- C6 (counterexample): the claim that every probe text ending in
`(c)` yields a replace of length 3 inserting `©` is false on the code:
for the probe text `ab(c)` the emitted instruction replaces 5 characters
(the whole probe) with `ab©`. -/
theorem literal_roundtrip_counterexample :
    emittedInstructions [copyright] ("ab(c)".toList) [] =
      [⟨5, "ab©".toList, []⟩] ∧
    emittedInstructions [copyright] ("ab(c)".toList) [] ≠
      [⟨3, "©".toList, []⟩] := by decide

/-- C6 (amended): a literal rule matches a probe text exactly when the
probe text ends with the literal; for the `copyright` rule every probe
text ending in `(c)` yields one replace instruction spanning the whole
probe whose insertion rewrites only the final 3 characters to `©`
(net effect: the trailing `(c)` becomes `©`), and every probe text
ending in `(c) ` (trailing space) yields no match and no instruction. -/
theorem copyright_literal_behavior (s to_ : List Char) (p : List Char)
    (attrs : Attrs) :
    (testCallback ⟨Pattern.lit s, to_⟩ p = true ↔ s <:+ p) ∧
    ("(c)".toList <:+ p →
      emittedInstructions [copyright] p attrs =
        [⟨p.length, p.take (p.length - 3) ++ "©".toList, attrs⟩]) ∧
    ("(c) ".toList <:+ p →
      emittedInstructions [copyright] p attrs = []) := by
  refine ⟨?_, ?_, ?_⟩
  · rw [testCallback]
    exact List.isSuffixOf_iff_suffix
  · intro hsuf
    have ht : (("(c)".toList).isSuffixOf p) = true :=
      List.isSuffixOf_iff_suffix.2 hsuf
    simp only [emittedInstructions, testCallback, textReplacer, copyright,
      ht]
    simp [ht]
  · intro hsuf
    have hnot : ¬ ("(c)".toList <:+ p) := by
      intro hc
      rcases List.suffix_or_suffix_of_suffix hc hsuf with h1 | h1
      · exact absurd h1 (by decide)
      · exact absurd h1 (by decide)
    have ht : (("(c)".toList).isSuffixOf p) = false := by
      rw [← Bool.not_eq_true]
      exact fun hco => hnot (List.isSuffixOf_iff_suffix.1 hco)
    simp [emittedInstructions, testCallback, copyright, ht]
    exact hnot

/-- Witness for C6 (amended): the probe text `zz(c)` yields the single
whole-probe instruction inserting `zz©`, and the probe text `zz(c) `
yields nothing. -/
theorem copyright_literal_behavior_witness :
    emittedInstructions [copyright] ("zz(c)".toList) [] =
      [⟨("zz(c)".toList).length,
        ("zz(c)".toList).take (("zz(c)".toList).length - 3) ++ "©".toList,
        []⟩] ∧
    emittedInstructions [copyright] ("zz(c) ".toList) [] = [] :=
  ⟨(copyright_literal_behavior ("(c)".toList) ("©".toList)
      ("zz(c)".toList) []).2.1 (by decide),
   (copyright_literal_behavior ("(c)".toList) ("©".toList)
      ("zz(c) ".toList) []).2.2 (by decide)⟩

/-- C7: `include: [ "mathematical" ]` with no `extra` and no `remove`
resolves to exactly the ten mathematical catalog rules, in the group's
fixed member order. -/
theorem mathematical_include_resolution :
    getConfiguredTransformations
        ⟨[ConfigEntry.str "mathematical"], [], []⟩ =
      [Resolved.rule "one_half" one_half,
       Resolved.rule "one_third" one_third,
       Resolved.rule "two_thirds" two_thirds,
       Resolved.rule "one_forth" one_forth,
       Resolved.rule "three_quarters" three_quarters,
       Resolved.rule "less_then_or_equal" less_then_or_equal,
       Resolved.rule "greater_then_or_equal" greater_then_or_equal,
       Resolved.rule "not_equal" not_equal,
       Resolved.rule "arrow_left" arrow_left,
       Resolved.rule "arrow_right" arrow_right] := by decide

/-- C8 (counterexample): the claim that EVERY `include`/`extra` entry
that is neither a built-in transformation name nor a group name passes
through unchanged into the resolved output is false as stated: an
unknown name that is also listed in `remove` is filtered out.  For
`include: [ "my_custom" ]`, `remove: [ "my_custom" ]` the resolved
output is empty. -/
theorem unknown_entry_passthrough_counterexample :
    isBuiltinRuleName (ConfigEntry.str "my_custom") = false ∧
    isGroupEntryName (ConfigEntry.str "my_custom") = false ∧
    getConfiguredTransformations
      ⟨[ConfigEntry.str "my_custom"], [], ["my_custom"]⟩ = [] := by decide

/-- C8 (amended): every `include`/`extra` entry that is neither a
built-in transformation name nor a group name, and that is not listed in
`remove`, passes through resolution unchanged as an opaque custom entry;
resolution is total, so no error is ever raised for unknown names. -/
theorem unknown_entry_passthrough (config : TransformationConfig)
    (e : ConfigEntry) (hin : e ∈ config.include_ ++ config.extra)
    (hb : isBuiltinRuleName e = false) (hg : isGroupEntryName e = false)
    (hr : isNotRemoved config.remove e = true) :
    Resolved.other e ∈ getConfiguredTransformations config := by
  have hgroup : expandEntry e = [e] := by
    cases e with
    | str s =>
      rw [expandEntry]
      cases hgs : TRANSFORMATION_GROUPS s with
      | some members =>
        rw [isGroupEntryName, hgs] at hg
        exact absurd hg (by simp)
      | none => rfl
    | obj i => rfl
  have hmem := mem_resolvedEntries config e hin hgroup hr
  have hmat : materialize e = Resolved.other e := by
    cases e with
    | str s =>
      rw [materialize]
      cases hbs : TRANSFORMATIONS s with
      | some r =>
        rw [isBuiltinRuleName, hbs] at hb
        exact absurd hb (by simp)
      | none => rfl
    | obj i => rfl
  exact hmat ▸ List.mem_map_of_mem materialize hmem

/-- Witness for C8 (amended): an inline custom rule object (identity
token 7) in `include` passes through as an opaque entry even when
`remove` is non-empty. -/
theorem unknown_entry_passthrough_witness :
    Resolved.other (ConfigEntry.obj 7) ∈
      getConfiguredTransformations ⟨[ConfigEntry.obj 7], [], ["quotes"]⟩ :=
  unknown_entry_passthrough ⟨[ConfigEntry.obj 7], [], ["quotes"]⟩
    (ConfigEntry.obj 7) (by decide) (by decide) (by decide) (by decide)

/-- C10: listing a group name in `remove` only filters occurrences of
the group reference itself: when a member rule's own name is listed
individually in `include` or `extra` and is not itself in `remove`,
putting the group's name in `remove` does not exclude that member from
the resolved output. -/
theorem group_removal_spares_individual_member
    (config : TransformationConfig) (g m : String) (mems : List String)
    (hg : TRANSFORMATION_GROUPS g = some mems) (hm : m ∈ mems)
    (hgr : g ∈ config.remove) (hmr : m ∉ config.remove)
    (hin : ConfigEntry.str m ∈ config.include_ ++ config.extra) :
    materialize (ConfigEntry.str m) ∈
      getConfiguredTransformations config := by
  have hng : TRANSFORMATION_GROUPS m = none := group_member_not_group hg hm
  have hgroup : expandEntry (ConfigEntry.str m) = [ConfigEntry.str m] := by
    rw [expandEntry, hng]
  have hrem : isNotRemoved config.remove (ConfigEntry.str m) = true := by
    rw [isNotRemoved]
    exact decide_eq_true hmr
  exact List.mem_map_of_mem materialize
    (mem_resolvedEntries config (ConfigEntry.str m) hin hgroup hrem)

/-- Witness for C10: with `include: [ "copyright" ]` and
`remove: [ "symbols" ]` (the group containing `copyright`), the
`copyright` rule still resolves. -/
theorem group_removal_spares_individual_member_witness :
    materialize (ConfigEntry.str "copyright") ∈
      getConfiguredTransformations
        ⟨[ConfigEntry.str "copyright"], [], ["symbols"]⟩ :=
  group_removal_spares_individual_member
    ⟨[ConfigEntry.str "copyright"], [], ["symbols"]⟩ "symbols" "copyright"
    (["copyright", "registered_trademark", "trademark"])
    (by decide) (by decide) (by decide) (by decide) (by decide)

end TextTransformation
